import Mathlib

/-!
Shallow embedding of `buildtools/media-check-icons.py` (the Inkscape icon-theme
consistency checker) and proofs about its collection, classification, reporting
and exit-code behaviour.

The script reads a directory tree via `os.walk`; here the walk output is part of
the input: each theme is given as `(name, path, walk)` where `walk` is the list
of `(root, files)` pairs `os.walk` would yield (the unused `dirs` component is
omitted).  Python `set` iteration order is unspecified (it depends on the
per-process hash seed), so every place the script iterates over a set is
parameterised by an enumeration function `e : List String → List String`; a
valid enumeration returns a permutation of the canonical (insertion-ordered,
duplicate-free) element list.
-/

/-- Characters of a string (Python strings are sequences of code points). -/
def chars (s : String) : List Char := s.data

/-- `listStartsWith p s` : `p` is a prefix of `s` (character-wise). -/
def listStartsWith : List Char → List Char → Bool
  | [], _ => true
  | _ :: _, [] => false
  | a :: as, b :: bs => a == b && listStartsWith as bs

/-- Python `s.endswith(p)`. -/
def strEndsWith (s p : String) : Bool := listStartsWith (chars p).reverse (chars s).reverse

/-- Fuel-driven, left-to-right, non-overlapping replacement on character lists.
Python `str.replace` for a non-empty pattern; the fuel (taken as the length of
the subject) only serves to make the recursion structural. -/
def replaceFuel (pat rep : List Char) : Nat → List Char → List Char
  | 0, s => s
  | _ + 1, [] => []
  | fuel + 1, c :: rest =>
    if listStartsWith pat (c :: rest) then rep ++ replaceFuel pat rep fuel ((c :: rest).drop pat.length)
    else c :: replaceFuel pat rep fuel rest

/-- Python `s.replace(pat, rep)` (our patterns are always non-empty). -/
def strReplace (s pat rep : String) : String :=
  String.mk (replaceFuel (chars pat) (chars rep) (chars s).length (chars s))

/-- Split a character list at every occurrence of `c` (Python `s.split(c)`). -/
def splitChar (c : Char) : List Char → List (List Char)
  | [] => [[]]
  | x :: rest =>
    match splitChar c rest, decide (x = c) with
    | r, true => [] :: r
    | [], false => [[x]]
    | h :: t, false => (x :: h) :: t

/-- Python `s.split("/")`. -/
def strSplitSlash (s : String) : List String := (splitChar '/' (chars s)).map String.mk

/-- Python `s.split("/", 1)`: first component and the re-joined remainder. -/
def splitFirstSlash (s : String) : String × String :=
  let parts := strSplitSlash s
  (parts.headD "", String.intercalate "/" parts.tail)

/-- Python `"/" in s`. -/
def strContainsSlash (s : String) : Bool := (chars s).contains '/'

/-- Python `os.path.join(a, b)` for the non-degenerate paths used here. -/
def pathJoin (a b : String) : String := a ++ "/" ++ b

/-- Code-point lexicographic comparison, Python `<=` on `str`. -/
def lexLe : List Char → List Char → Bool
  | [], _ => true
  | _ :: _, [] => false
  | a :: as, b :: bs => if a = b then lexLe as bs else decide (a.toNat < b.toNat)

/-- Python `<=` on strings (used by `sorted`). -/
def strLe (a b : String) : Bool := lexLe (chars a) (chars b)

/-- Insertion of one element into a list sorted by `le`. -/
def insertSorted (le : String → String → Bool) (x : String) : List String → List String
  | [] => [x]
  | y :: ys => if le x y then x :: y :: ys else y :: insertSorted le x ys

/-- Sorting by insertion; on duplicate-free keys this agrees with Python
`sorted` for the same total order. -/
def sortedBy (le : String → String → Bool) (l : List String) : List String :=
  l.foldr (insertSorted le) []

/-- Python-set-as-list insertion: keep insertion order, never duplicate. -/
def listInsert (l : List String) (x : String) : List String :=
  if x ∈ l then l else l ++ [x]

/-- Same, for `(theme, kind)` pairs. -/
def pairInsert (l : List (String × String)) (x : String × String) : List (String × String) :=
  if x ∈ l then l else l ++ [x]

/-- Python set equality of two lists-as-sets. -/
def listSetEq (l1 l2 : List String) : Bool :=
  l1.all (fun x => decide (x ∈ l2)) && l2.all (fun x => decide (x ∈ l1))

-- ---------------------------------------------------------------------------
-- Static policy constants of the script (media-check-icons.py lines 13-84).
-- ---------------------------------------------------------------------------

def FALLBACK_THEME : String := "hicolor"

def SYMBOLIC_ONLY_ICONS : List String :=
  ["list-add", "list-remove", "applications-graphics", "edit-find",
   "dialog-warning", "edit-clear", "view-refresh", "pan-down", "pan-right",
   "pan-left", "pan-end", "pan-start", "pan-up", "window-close",
   "application-exit", "document-save-as", "open-menu"]

def SCALABLE_ONLY_ICONS : List String :=
  ["color-selector-hsx", "color-selector-hsl", "color-selector-hsv",
   "color-selector-oklch", "color-selector-named", "color-selector-hsluv",
   "color-selector-cms", "color-selector-cmyk", "color-selector-okhsl",
   "color-selector-rgb", "color-wheel", "out-of-gamut-icon"]

def IGNORE_ILLUSTRATIONS : List String :=
  ["feBlend-icon", "feColorMatrix-icon", "feComponentTransfer-icon",
   "feComposite-icon", "feConvolveMatrix-icon", "feDiffuseLighting-icon",
   "feDisplacementMap-icon", "feFlood-icon", "feGaussianBlur-icon",
   "feImage-icon", "feMerge-icon", "feMorphology-icon", "feOffset-icon",
   "feSpecularLighting-icon", "feTile-icon", "feTurbulence-icon"]

def IGNORE_UI : List String :=
  ["resizing-handle-horizontal", "resizing-handle-vertical"]

/-- `NO_PROBLEM, ..., SYMBOLIC_ONLY = range(7)`. -/
def NO_PROBLEM : Nat := 0
def BAD_SYMBOLIC_NAME : Nat := 1
def BAD_SCALABLE_NAME : Nat := 2
def MISSING_FROM : Nat := 3
def ONLY_FOUND_IN : Nat := 4
def SCALABLE_ONLY : Nat := 5
def SYMBOLIC_ONLY : Nat := 6

/-- `theme_to_string` (line 93). -/
def theme_to_string (name kind : String) : String := name ++ "-" ++ kind

-- ---------------------------------------------------------------------------
-- Collection phase (find_errors_in, lines 96-138).
-- ---------------------------------------------------------------------------

/-- The accumulators built while walking the themes. `data` is the
insertion-ordered association list behind `data = defaultdict(set)`. -/
structure CollectState where
  data : List (String × List (String × String))
  bad_symbolic : List String
  bad_scalable : List String
  all_symbolics : List String
deriving DecidableEq

def initCollect : CollectState := ⟨[], [], [], []⟩

/-- `data[filename]` (a missing key denotes the empty set). -/
def dataGet : List (String × List (String × String)) → String → List (String × String)
  | [], _ => []
  | (k, ps) :: rest, key => if k = key then ps else dataGet rest key

/-- `data[filename].add(pair)`. -/
def dataInsert : List (String × List (String × String)) → String → String × String →
    List (String × List (String × String))
  | [], key, p => [(key, [p])]
  | (k, ps) :: rest, key, p =>
    if k = key then (k, pairInsert ps p) :: rest else (k, ps) :: dataInsert rest key p

/-- Lines 134-138: the ignore test and `data[filename].add(theme_name)`.
Note the test compares the full filename (ending in `.svg`) against the
extension-less entries of the ignore sets. -/
def registerIcon (name kind relRoot : String) (st : CollectState) (fname : String) :
    CollectState :=
  if fname ∈ IGNORE_ILLUSTRATIONS ∨ fname ∈ IGNORE_UI then st
  else { st with data := dataInsert st.data (pathJoin relRoot fname) (name, kind) }

/-- Lines 119-138: one file of one walked directory. -/
def processFile (name kind orig relRoot : String) (st : CollectState) (fname : String) :
    CollectState :=
  if !(strEndsWith fname ".svg") then st
  else if kind = "symbolic" then
    if !(strEndsWith fname "-symbolic.svg") then
      { st with bad_symbolic := st.bad_symbolic ++ [pathJoin orig fname] }
    else
      registerIcon name kind relRoot st (strReplace fname "-symbolic.svg" ".svg")
  else if kind = "scalable" ∧ strEndsWith fname "-symbolic.svg" then
    { st with bad_scalable := st.bad_scalable ++ [pathJoin orig fname] }
  else
    registerIcon name kind relRoot st fname

/-- Lines 105-138: one `os.walk` result `(root, files)` of theme `(name, path)`. -/
def processWalkEntry (name path : String) (st : CollectState)
    (entry : String × List String) : CollectState :=
  let orig := entry.1
  let relRoot := entry.1.drop (path.length + 1)
  if !(strContainsSlash relRoot) then st
  else
    let kind := (splitFirstSlash relRoot).1
    let rest := (splitFirstSlash relRoot).2
    if kind ≠ "symbolic" ∧ kind ≠ "scalable" then st
    else
      let st := if kind = "symbolic" then
        { st with all_symbolics := listInsert st.all_symbolics name } else st
      entry.2.foldl (processFile name kind orig rest) st

/-- A theme as handed to `find_errors_in`: its name, its on-disk path, and the
`(root, files)` pairs `os.walk(path)` yields for it. -/
def ThemeInput := String × String × List (String × List String)

/-- The inner `for root, dirs, files in os.walk(path)` loop for one theme. -/
def processTheme (st : CollectState) (th : ThemeInput) : CollectState :=
  th.2.2.foldl (processWalkEntry th.1 th.2.1) st

/-- Lines 96-138 of `find_errors_in`: the whole collection pass. -/
def collect (themes : List ThemeInput) : CollectState :=
  themes.foldl processTheme initCollect

-- ---------------------------------------------------------------------------
-- Classification phase (find_errors_in, lines 145-191).
-- ---------------------------------------------------------------------------

/-- The per-category accumulators, `defaultdict(list)`s keyed by theme (or
theme-kind) strings, in insertion order. -/
abbrev Bucket := List (String × List String)

/-- `bucket[key]` (a missing key denotes the empty list). -/
def bucketGet : Bucket → String → List String
  | [], _ => []
  | (k, fs) :: rest, key => if k = key then fs else bucketGet rest key

/-- `bucket[key].append(f)`. -/
def bucketAdd : Bucket → String → String → Bucket
  | [], key, f => [(key, [f])]
  | (k, fs) :: rest, key, f =>
    if k = key then (k, fs ++ [f]) :: rest else (k, fs) :: bucketAdd rest key f

/-- `for t in keys: bucket[t].append(f)`. -/
def addAll (b : Bucket) (keys : List String) (f : String) : Bucket :=
  keys.foldl (fun b t => bucketAdd b t f) b

/-- `set(name for (name, kind) in datum if kind == 'symbolic')` (line 154),
as its canonical duplicate-free list. -/
def symbolicsOf (datum : List (String × String)) : List String :=
  (datum.filter (fun p => p.2 = "symbolic")).map Prod.fst

/-- Line 155, likewise for `'scalable'`. -/
def scalablesOf (datum : List (String × String)) : List String :=
  (datum.filter (fun p => p.2 = "scalable")).map Prod.fst

/-- `filename.split("/")[-1].replace(".svg", "")` (line 158). -/
def shortNameOf (filename : String) : String :=
  strReplace ((strSplitSlash filename).getLastD "") ".svg" ""

/-- `scalables - symbolics` (line 171), as a canonical list. -/
def diffOf (datum : List (String × String)) : List String :=
  (scalablesOf datum).filter (fun t => decide (t ∉ symbolicsOf datum))

/-- The five classification accumulators created at lines 145-149. -/
structure ClassifyState where
  only_found_in : Bucket
  missing_from : Bucket
  warn_missing_from : Bucket
  symbolic_found : Bucket
  scalable_found : Bucket
deriving DecidableEq

def initClassify : ClassifyState := ⟨[], [], [], [], []⟩

/-- An enumeration function standing for Python set iteration order. -/
def Enumeration := List String → List String

/-- A Python set enumeration yields every element exactly once. -/
def ValidEnum (e : Enumeration) : Prop := ∀ l : List String, List.Perm (e l) l

/-- Iterating a set in its canonical order. -/
def idEnum : Enumeration := fun l => l

/-- Iterating a set in reversed canonical order (equally legitimate, since
Python set iteration order is unspecified). -/
def revEnum : Enumeration := fun l => l.reverse

/-- Lines 151-191: the body of `for filename in sorted(data)` for one
`filename`.  `e` stands for the set iteration order of this process. -/
def classifyStep (e : Enumeration) (data : List (String × List (String × String)))
    (all_symbolics : List String) (st : ClassifyState) (filename : String) :
    ClassifyState :=
  let datum := dataGet data filename
  let symbolics := symbolicsOf datum
  let scalables := scalablesOf datum
  let short_name := shortNameOf filename
  let st := if short_name ∈ SCALABLE_ONLY_ICONS then
    { st with symbolic_found := addAll st.symbolic_found (e symbolics) filename } else st
  let st := if short_name ∈ SYMBOLIC_ONLY_ICONS then
    { st with scalable_found := addAll st.scalable_found (e scalables) filename } else st
  if short_name ∈ SCALABLE_ONLY_ICONS ∨ short_name ∈ SYMBOLIC_ONLY_ICONS ∨
      short_name ∈ IGNORE_ILLUSTRATIONS ∨ short_name ∈ IGNORE_UI then st
  else if (diffOf datum).length > 0 then
    { st with missing_from :=
        addAll st.missing_from ((e (diffOf datum)).map (fun name => name ++ "-symbolic")) filename }
  else if listSetEq symbolics all_symbolics then st
  else if FALLBACK_THEME ∈ symbolics then
    { st with warn_missing_from :=
        addAll st.warn_missing_from (e (all_symbolics.filter (fun t => decide (t ∉ symbolics)))) filename }
  else if datum.length = 1 then
    let p := datum.headD ("", "")
    { st with only_found_in := bucketAdd st.only_found_in (theme_to_string p.1 p.2) filename }
  else
    { st with missing_from := bucketAdd st.missing_from FALLBACK_THEME filename }

/-- `sorted(data)`: the keys of `data` in Python string order. -/
def sortedKeys (data : List (String × List (String × String))) : List String :=
  sortedBy strLe (data.map Prod.fst)

/-- Lines 145-191: the whole classification pass. -/
def classify (e : Enumeration) (cs : CollectState) : ClassifyState :=
  (sortedKeys cs.data).foldl (classifyStep e cs.data cs.all_symbolics) initClassify

-- ---------------------------------------------------------------------------
-- Report assembly (lines 140-143 and 193-204), rendering and exit code.
-- ---------------------------------------------------------------------------

/-- A report category payload: a bare list (the bad-name categories) or a
per-theme dictionary. -/
inductive Payload where
  | flat (files : List String)
  | dict (b : Bucket)
deriving DecidableEq

/-- `find_errors_in`: the returned `(errors, warnings)` pair, each a list of
`(category, payload)` in the order the script appends them. -/
def find_errors_in (e : Enumeration) (themes : List ThemeInput) :
    List (Nat × Payload) × List (Nat × Payload) :=
  let cs := collect themes
  let ks := classify e cs
  let errors :=
    (if cs.bad_symbolic.isEmpty then [] else [(BAD_SYMBOLIC_NAME, Payload.flat cs.bad_symbolic)]) ++
    (if cs.bad_scalable.isEmpty then [] else [(BAD_SCALABLE_NAME, Payload.flat cs.bad_scalable)]) ++
    (if ks.only_found_in.isEmpty then [] else [(ONLY_FOUND_IN, Payload.dict ks.only_found_in)]) ++
    (if ks.missing_from.isEmpty then [] else [(MISSING_FROM, Payload.dict ks.missing_from)]) ++
    (if ks.symbolic_found.isEmpty then [] else [(SCALABLE_ONLY, Payload.dict ks.symbolic_found)]) ++
    (if ks.scalable_found.isEmpty then [] else [(SYMBOLIC_ONLY, Payload.dict ks.scalable_found)])
  let warnings :=
    (if ks.warn_missing_from.isEmpty then [] else [(MISSING_FROM, Payload.dict ks.warn_missing_from)])
  (errors, warnings)

/-- An apostrophe, for the report strings that contain one. -/
def apos : String := String.singleton (Char.ofNat 39)

/-- ` - {name}\n` lines. -/
def renderLines (marker : String) (names : List String) : String :=
  names.foldl (fun acc n => acc ++ marker ++ n ++ "\n") ""

/-- One `Icons ... {theme}:` block per dictionary key, in dictionary order. -/
def renderDict (header trailer marker : String) (xform : String → String) (b : Bucket) : String :=
  b.foldl (fun acc kv => acc ++ header ++ kv.1 ++ trailer ++ renderLines marker (kv.2.map xform) ++ "\n") ""

/-- The error count of lines 209-214. -/
def countPayload : Payload → Nat
  | Payload.flat files => files.length
  | Payload.dict b => (b.map (fun kv => kv.2.length)).sum

/-- Lines 216-253: one error category section. -/
def renderErrorSection (ep : Nat × Payload) : String :=
  match ep.2 with
  | Payload.flat names =>
    if ep.1 = BAD_SCALABLE_NAME then
      "Scalable themes should not have symbolic icons in them (They end with -symbolic.svg so won" ++
        apos ++ "t be used):\n" ++ renderLines " - " names ++ "\n"
    else if ep.1 = BAD_SYMBOLIC_NAME then
      "Symbolic themes should only have symbolic icons in them (They don" ++ apos ++
        "t end with -symbolic.svg so can" ++ apos ++ "t be used):\n" ++
        renderLines " - " names ++ "\n"
    else ""
  | Payload.dict b =>
    if ep.1 = MISSING_FROM then
      renderDict "Icons missing from " ":\n" " - " (fun n => n) b
    else if ep.1 = ONLY_FOUND_IN then
      renderDict "Icons only found in " ":\n" " + " (fun n => n) b
    else if ep.1 = SCALABLE_ONLY then
      renderDict "Icons should be scalable ONLY, remove from " ":\n" " - "
        (fun n => strReplace n ".svg" "-symbolic.svg") b
    else if ep.1 = SYMBOLIC_ONLY then
      renderDict "Icons should be symbolic ONLY, remove from " ":\n" " - " (fun n => n) b
    else ""

/-- Lines 254-267: the warnings part. -/
def renderWarningSection (wp : Nat × Payload) : String :=
  match wp.2 with
  | Payload.flat _ => ""
  | Payload.dict b =>
    if wp.1 = MISSING_FROM then renderDict "Icons missing from " ":\n" " - " (fun n => n) b
    else ""

/-- Lines 206-267: everything `__main__` writes to stderr. -/
def renderReport (errors warnings : List (Nat × Payload)) : String :=
  (if errors.isEmpty then "" else
    " == " ++ toString ((errors.map (fun ep => countPayload ep.2)).sum) ++
      " errors found in icon themes! == \n\n" ++
      String.join (errors.map renderErrorSection)) ++
  (if warnings.isEmpty then "" else
    " == " ++ toString ((warnings.map (fun wp => countPayload wp.2)).sum) ++
      " warnings found in icon themes == \n\n" ++
      String.join (warnings.map renderWarningSection))

/-- The whole `__main__` run: the text written to stderr and the process exit
status (`sys.exit(5)` when any errors were collected, 0 otherwise). -/
def runMain (e : Enumeration) (themes : List ThemeInput) : String × Nat :=
  let ew := find_errors_in e themes
  (renderReport ew.1 ew.2, if ew.1.isEmpty then 0 else 5)

-- ---------------------------------------------------------------------------
-- Concrete directory trees used as test inputs.
-- ---------------------------------------------------------------------------

/-- Scenario A of the specification: `hicolor` has `scalable/cat/x.svg` and
`symbolic/cat/x-symbolic.svg`; `custom` has only `scalable/cat/x.svg`. -/
def themesA : List ThemeInput :=
  [("hicolor", "./share/icons/hicolor",
    [("./share/icons/hicolor/scalable/cat", ["x.svg"]),
     ("./share/icons/hicolor/symbolic/cat", ["x-symbolic.svg"])]),
   ("custom", "./share/icons/custom",
    [("./share/icons/custom/scalable/cat", ["x.svg"])])]

/-- Scenario D of the specification: `cat/z.svg` appears only as
`custom/scalable/cat/z.svg`; no symbolic variant anywhere. -/
def themesD : List ThemeInput :=
  [("custom", "./share/icons/custom",
    [("./share/icons/custom/scalable/cat", ["z.svg"])])]

/-- A tree whose only icon is `cat/color-wheel.svg` (a `SCALABLE_ONLY_ICONS`
member), present as symbolic in every theme with a symbolic set. -/
def themesCW : List ThemeInput :=
  [("hicolor", "./share/icons/hicolor",
    [("./share/icons/hicolor/symbolic/cat", ["color-wheel-symbolic.svg"])])]

/-- A tree whose only icon is the unremarkable `cat/ok.svg`, present as
symbolic in every theme with a symbolic set. -/
def themesW : List ThemeInput :=
  [("hicolor", "./share/icons/hicolor",
    [("./share/icons/hicolor/symbolic/cat", ["ok-symbolic.svg"])])]

/-- A theme with a symbolic directory hierarchy but no files at all. -/
def themesEmptyDir : List ThemeInput :=
  [("emptytheme", "./share/icons/emptytheme",
    [("./share/icons/emptytheme/symbolic/cat", [])])]

/-- A tree with a file named after an `IGNORE_ILLUSTRATIONS` entry. -/
def themesIgn : List ThemeInput :=
  [("hicolor", "./share/icons/hicolor",
    [("./share/icons/hicolor/scalable/cat", ["feBlend-icon.svg"])])]

/-- Scenario C of the specification: `list-add` (a `SYMBOLIC_ONLY_ICONS`
member) appears as `hicolor/scalable/cat/list-add.svg`. -/
def themesLA : List ThemeInput :=
  [("hicolor", "./share/icons/hicolor",
    [("./share/icons/hicolor/scalable/cat", ["list-add.svg"])])]

/-- A tree that produces an `ONLY_FOUND_IN` entry: `custom` has
`symbolic/cat/z-symbolic.svg`, and `hicolor` has a (file-less) symbolic
hierarchy, so the icon of `custom` is not in every symbolic theme. -/
def themesOF : List ThemeInput :=
  [("hicolor", "./share/icons/hicolor",
    [("./share/icons/hicolor/symbolic/cat", [])]),
   ("custom", "./share/icons/custom",
    [("./share/icons/custom/symbolic/cat", ["z-symbolic.svg"])])]

/-- A tree where the warning bucket receives two theme keys for the same
icon: `hicolor` has `symbolic/cat/x-symbolic.svg`, while `alpha` and `beta`
have symbolic hierarchies without that icon. -/
def themesAB : List ThemeInput :=
  [("hicolor", "./share/icons/hicolor",
    [("./share/icons/hicolor/symbolic/cat", ["x-symbolic.svg"])]),
   ("alpha", "./share/icons/alpha",
    [("./share/icons/alpha/symbolic/cat", [])]),
   ("beta", "./share/icons/beta",
    [("./share/icons/beta/symbolic/cat", [])])]

/-- The keys of a bucket (or of `data`), in insertion order. -/
def keysOf {α : Type} (b : List (String × α)) : List String := b.map Prod.fst

/-- Every value list of the bucket is non-empty (true for every bucket the
classifier builds, since keys appear only together with an appended file). -/
def ValsNE (b : Bucket) : Prop := ∀ p ∈ b, p.2 ≠ []

/-- Shorthand: an icon filename appears in no accumulator of a classification
state. -/
def NotRecorded (f : String) (st : ClassifyState) : Prop :=
  ∀ q, f ∉ bucketGet st.only_found_in q ∧ f ∉ bucketGet st.missing_from q ∧
    f ∉ bucketGet st.warn_missing_from q ∧ f ∉ bucketGet st.symbolic_found q ∧
    f ∉ bucketGet st.scalable_found q

/-- Well-formedness of the collection result: every recorded observation set is
duplicate-free and only mentions the two scanned kinds, and the list of themes
with a symbolic set is duplicate-free. -/
def CollectWF (st : CollectState) : Prop :=
  (∀ q, (dataGet st.data q).Nodup ∧
    ∀ p ∈ dataGet st.data q, p.2 = "symbolic" ∨ p.2 = "scalable") ∧
  st.all_symbolics.Nodup

/-- The condition under which a walk entry marks its theme as having a
symbolic set: the relative root has at least two components and the first one
is `symbolic` (the files of the directory are irrelevant). -/
def entryMarksSymbolic (path : String) (entry : String × List String) : Prop :=
  strContainsSlash (entry.1.drop (path.length + 1)) = true ∧
    (splitFirstSlash (entry.1.drop (path.length + 1))).1 = "symbolic"

instance (path : String) (entry : String × List String) :
    Decidable (entryMarksSymbolic path entry) :=
  inferInstanceAs (Decidable (_ ∧ _))

/-- Two classification states agree on every lookup of every accumulator. -/
def GetsEq (s1 s2 : ClassifyState) : Prop :=
  ∀ q, bucketGet s1.only_found_in q = bucketGet s2.only_found_in q ∧
    bucketGet s1.missing_from q = bucketGet s2.missing_from q ∧
    bucketGet s1.warn_missing_from q = bucketGet s2.warn_missing_from q ∧
    bucketGet s1.symbolic_found q = bucketGet s2.symbolic_found q ∧
    bucketGet s1.scalable_found q = bucketGet s2.scalable_found q

/-- All five accumulators have non-empty value lists. -/
def ValsNEState (st : ClassifyState) : Prop :=
  ValsNE st.only_found_in ∧ ValsNE st.missing_from ∧ ValsNE st.warn_missing_from ∧
    ValsNE st.symbolic_found ∧ ValsNE st.scalable_found

-- ---------------------------------------------------------------------------
-- Lemmas: buckets and association lists.
-- ---------------------------------------------------------------------------

theorem bucketGet_bucketAdd (b : Bucket) (key f q : String) :
    bucketGet (bucketAdd b key f) q =
      if q = key then bucketGet b q ++ [f] else bucketGet b q := by
  induction b with
  | nil =>
    by_cases h : q = key
    · subst h
      simp [bucketAdd, bucketGet]
    · have h' : ¬ key = q := fun hh => h hh.symm
      simp [bucketAdd, bucketGet, h, h']
  | cons p rest ih =>
    obtain ⟨k, fs⟩ := p
    by_cases hk : k = key
    · subst hk
      by_cases hq : q = k
      · subst hq
        simp [bucketAdd, bucketGet]
      · have hq' : ¬ k = q := fun hh => hq hh.symm
        simp [bucketAdd, bucketGet, hq, hq']
    · by_cases hkq : k = q
      · subst hkq
        have hqkey : ¬ k = key := hk
        simp [bucketAdd, bucketGet, hqkey]
      · simp [bucketAdd, bucketGet, hk, hkq, ih]

theorem mem_keysOf_bucketAdd (b : Bucket) (key f q : String) :
    q ∈ keysOf (bucketAdd b key f) ↔ q ∈ keysOf b ∨ q = key := by
  induction b with
  | nil => simp [bucketAdd, keysOf]
  | cons p rest ih =>
    obtain ⟨k, fs⟩ := p
    by_cases hk : k = key <;> simp [bucketAdd, keysOf, hk] at ih ⊢
    · tauto
    · rw [ih]
      tauto

theorem valsNE_bucketAdd (b : Bucket) (key f : String) (h : ValsNE b) :
    ValsNE (bucketAdd b key f) := by
  induction b with
  | nil =>
    intro p hp
    simp [bucketAdd] at hp
    simp [hp]
  | cons hd rest ih =>
    obtain ⟨k, fs⟩ := hd
    have hrest : ValsNE rest := fun p hp => h p (List.mem_cons_of_mem _ hp)
    by_cases hk : k = key <;> intro p hp <;> simp [bucketAdd, hk] at hp
    · rcases hp with hp | hp
      · simp [hp]
      · exact h p (List.mem_cons_of_mem _ hp)
    · rcases hp with hp | hp
      · subst hp
        exact h (k, fs) (List.mem_cons_self _ _)
      · exact ih hrest p hp

theorem bucketGet_eq_nil_of_not_mem (b : Bucket) (q : String) (h : q ∉ keysOf b) :
    bucketGet b q = [] := by
  induction b with
  | nil => rfl
  | cons p rest ih =>
    obtain ⟨k, fs⟩ := p
    simp only [keysOf, List.map_cons, List.mem_cons] at h
    push_neg at h
    have hk : ¬ k = q := fun hh => h.1 hh.symm
    simp only [bucketGet, if_neg hk]
    exact ih (by simpa [keysOf] using h.2)

theorem bucket_nil_iff (b1 b2 : Bucket) (h1 : ValsNE b1) (h2 : ValsNE b2)
    (h : ∀ q, bucketGet b1 q = bucketGet b2 q) : b1 = [] ↔ b2 = [] := by
  constructor
  · intro hb1
    by_contra hb2
    obtain ⟨⟨k, fs⟩, rest, rfl⟩ := List.exists_cons_of_ne_nil hb2
    have : bucketGet ((k, fs) :: rest) k = fs := by simp [bucketGet]
    have hget := h k
    rw [hb1, this] at hget
    exact h2 (k, fs) (List.mem_cons_self _ _) (by simpa [bucketGet] using hget.symm)
  · intro hb2
    by_contra hb1
    obtain ⟨⟨k, fs⟩, rest, rfl⟩ := List.exists_cons_of_ne_nil hb1
    have : bucketGet ((k, fs) :: rest) k = fs := by simp [bucketGet]
    have hget := h k
    rw [hb2, this] at hget
    exact h1 (k, fs) (List.mem_cons_self _ _) (by simpa [bucketGet] using hget)

theorem bucketGet_addAll (b : Bucket) (l : List String) (f q : String) (hnd : l.Nodup) :
    bucketGet (addAll b l f) q = if q ∈ l then bucketGet b q ++ [f] else bucketGet b q := by
  induction l generalizing b with
  | nil => simp [addAll]
  | cons x xs ih =>
    have hx : x ∉ xs := (List.nodup_cons.mp hnd).1
    have hxs : xs.Nodup := (List.nodup_cons.mp hnd).2
    show bucketGet (addAll (bucketAdd b x f) xs f) q = _
    rw [ih _ hxs, bucketGet_bucketAdd]
    by_cases hqx : q = x
    · subst hqx
      simp [hx]
    · by_cases hqxs : q ∈ xs
      · simp [hqx, hqxs]
      · simp [hqx, hqxs]

theorem bucketGet_addAll_perm (b : Bucket) (l s : List String) (f q : String)
    (hp : List.Perm l s) (hnd : s.Nodup) :
    bucketGet (addAll b l f) q = if q ∈ s then bucketGet b q ++ [f] else bucketGet b q := by
  rw [bucketGet_addAll b l f q (hp.nodup_iff.mpr hnd)]
  simp only [hp.mem_iff]

theorem mem_bucketGet_addAll (b : Bucket) (l : List String) (f q x : String)
    (h : x ∈ bucketGet (addAll b l f) q) :
    x ∈ bucketGet b q ∨ (x = f ∧ q ∈ l) := by
  induction l generalizing b with
  | nil => exact Or.inl h
  | cons y ys ih =>
    rcases ih (bucketAdd b y f) h with hh | hh
    · rw [bucketGet_bucketAdd] at hh
      by_cases hqy : q = y
      · rw [if_pos hqy] at hh
        rcases List.mem_append.mp hh with hh | hh
        · exact Or.inl hh
        · exact Or.inr ⟨List.mem_singleton.mp hh, by simp [hqy]⟩
      · rw [if_neg hqy] at hh
        exact Or.inl hh
    · exact Or.inr ⟨hh.1, List.mem_cons_of_mem _ hh.2⟩

theorem mem_bucketGet_addAll_of_mem (b : Bucket) (l : List String) (f q x : String)
    (h : x ∈ bucketGet b q) : x ∈ bucketGet (addAll b l f) q := by
  induction l generalizing b with
  | nil => exact h
  | cons y ys ih =>
    refine ih (bucketAdd b y f) ?_
    rw [bucketGet_bucketAdd]
    by_cases hqy : q = y
    · rw [if_pos hqy]
      exact List.mem_append_left _ h
    · rw [if_neg hqy]
      exact h

theorem self_mem_bucketGet_addAll (b : Bucket) (l : List String) (f q : String)
    (h : q ∈ l) : f ∈ bucketGet (addAll b l f) q := by
  induction l generalizing b with
  | nil => cases h
  | cons y ys ih =>
    rcases List.mem_cons.mp h with hq | hq
    · show f ∈ bucketGet (addAll (bucketAdd b y f) ys f) q
      refine mem_bucketGet_addAll_of_mem _ _ _ _ _ ?_
      rw [bucketGet_bucketAdd, if_pos hq]
      exact List.mem_append_right _ (List.mem_singleton_self f)
    · exact ih (bucketAdd b y f) hq

theorem mem_keysOf_addAll (b : Bucket) (l : List String) (f q : String) :
    q ∈ keysOf (addAll b l f) ↔ q ∈ keysOf b ∨ q ∈ l := by
  induction l generalizing b with
  | nil => simp [addAll]
  | cons y ys ih =>
    show q ∈ keysOf (addAll (bucketAdd b y f) ys f) ↔ _
    rw [ih, mem_keysOf_bucketAdd]
    simp
    tauto

theorem valsNE_addAll (b : Bucket) (l : List String) (f : String) (h : ValsNE b) :
    ValsNE (addAll b l f) := by
  induction l generalizing b with
  | nil => exact h
  | cons y ys ih => exact ih _ (valsNE_bucketAdd _ _ _ h)

-- ---------------------------------------------------------------------------
-- Lemmas: list-sets and the `data` map.
-- ---------------------------------------------------------------------------

theorem mem_listInsert (l : List String) (x y : String) :
    y ∈ listInsert l x ↔ y ∈ l ∨ y = x := by
  unfold listInsert
  by_cases h : x ∈ l
  · simp only [if_pos h]
    constructor
    · exact Or.inl
    · rintro (hy | rfl)
      · exact hy
      · exact h
  · simp [if_neg h]

theorem nodup_listInsert (l : List String) (x : String) (h : l.Nodup) :
    (listInsert l x).Nodup := by
  unfold listInsert
  by_cases hx : x ∈ l
  · simpa [if_pos hx]
  · simpa [if_neg hx, List.nodup_append] using And.intro h hx

theorem mem_pairInsert (l : List (String × String)) (x y : String × String) :
    y ∈ pairInsert l x ↔ y ∈ l ∨ y = x := by
  unfold pairInsert
  by_cases h : x ∈ l
  · simp only [if_pos h]
    constructor
    · exact Or.inl
    · rintro (hy | rfl)
      · exact hy
      · exact h
  · simp [if_neg h]

theorem nodup_pairInsert (l : List (String × String)) (x : String × String) (h : l.Nodup) :
    (pairInsert l x).Nodup := by
  unfold pairInsert
  by_cases hx : x ∈ l
  · simpa [if_pos hx]
  · simpa [if_neg hx, List.nodup_append] using And.intro h hx

theorem dataGet_dataInsert (d : List (String × List (String × String)))
    (key : String) (p : String × String) (q : String) :
    dataGet (dataInsert d key p) q =
      if q = key then pairInsert (dataGet d q) p else dataGet d q := by
  induction d with
  | nil =>
    by_cases h : q = key
    · subst h
      simp [dataInsert, dataGet, pairInsert]
    · have h' : ¬ key = q := fun hh => h hh.symm
      simp [dataInsert, dataGet, h, h']
  | cons e rest ih =>
    obtain ⟨k, ps⟩ := e
    by_cases hk : k = key
    · subst hk
      by_cases hq : q = k
      · subst hq
        simp [dataInsert, dataGet]
      · have hq' : ¬ k = q := fun hh => hq hh.symm
        simp [dataInsert, dataGet, hq, hq']
    · by_cases hkq : k = q
      · subst hkq
        have hqkey : ¬ k = key := hk
        simp [dataInsert, dataGet, hqkey]
      · simp [dataInsert, dataGet, hk, hkq, ih]

theorem mem_keysOf_dataInsert (d : List (String × List (String × String)))
    (key : String) (p : String × String) (q : String) :
    q ∈ keysOf (dataInsert d key p) ↔ q ∈ keysOf d ∨ q = key := by
  induction d with
  | nil => simp [dataInsert, keysOf]
  | cons e rest ih =>
    obtain ⟨k, ps⟩ := e
    by_cases hk : k = key <;> simp [dataInsert, keysOf, hk] at ih ⊢
    · tauto
    · rw [ih]
      tauto

theorem dataGet_eq_nil_of_not_mem (d : List (String × List (String × String)))
    (q : String) (h : q ∉ keysOf d) : dataGet d q = [] := by
  induction d with
  | nil => rfl
  | cons e rest ih =>
    obtain ⟨k, ps⟩ := e
    simp only [keysOf, List.map_cons, List.mem_cons] at h
    push_neg at h
    have hk : ¬ k = q := fun hh => h.1 hh.symm
    simp only [dataGet, if_neg hk]
    exact ih (by simpa [keysOf] using h.2)

-- ---------------------------------------------------------------------------
-- Lemmas: the collection phase.
-- ---------------------------------------------------------------------------

theorem collectWF_registerIcon (name kind relRoot : String) (st : CollectState)
    (fname : String) (hkind : kind = "symbolic" ∨ kind = "scalable")
    (h : CollectWF st) : CollectWF (registerIcon name kind relRoot st fname) := by
  unfold registerIcon
  by_cases hig : fname ∈ IGNORE_ILLUSTRATIONS ∨ fname ∈ IGNORE_UI
  · simpa [if_pos hig]
  · simp only [if_neg hig]
    refine ⟨fun q => ?_, h.2⟩
    rw [dataGet_dataInsert]
    by_cases hq : q = pathJoin relRoot fname
    · rw [if_pos hq]
      constructor
      · exact nodup_pairInsert _ _ ((h.1 q).1)
      · intro p hp
        rcases (mem_pairInsert _ _ _).mp hp with hp | rfl
        · exact (h.1 q).2 p hp
        · exact hkind
    · rw [if_neg hq]
      exact h.1 q

theorem all_symbolics_registerIcon (name kind relRoot : String) (st : CollectState)
    (fname : String) :
    (registerIcon name kind relRoot st fname).all_symbolics = st.all_symbolics := by
  unfold registerIcon
  by_cases hig : fname ∈ IGNORE_ILLUSTRATIONS ∨ fname ∈ IGNORE_UI <;>
    simp [hig]

theorem collectWF_processFile (name kind orig relRoot : String) (st : CollectState)
    (fname : String) (hkind : kind = "symbolic" ∨ kind = "scalable")
    (h : CollectWF st) : CollectWF (processFile name kind orig relRoot st fname) := by
  unfold processFile
  split_ifs with h1 h2 h3 h4
  · exact h
  · exact ⟨h.1, h.2⟩
  · exact collectWF_registerIcon _ _ _ _ _ hkind h
  · exact ⟨h.1, h.2⟩
  · exact collectWF_registerIcon _ _ _ _ _ hkind h

theorem all_symbolics_processFile (name kind orig relRoot : String) (st : CollectState)
    (fname : String) :
    (processFile name kind orig relRoot st fname).all_symbolics = st.all_symbolics := by
  unfold processFile
  split_ifs <;> simp [all_symbolics_registerIcon]

theorem all_symbolics_processFile_fold (name kind orig relRoot : String)
    (st : CollectState) (files : List String) :
    (files.foldl (processFile name kind orig relRoot) st).all_symbolics =
      st.all_symbolics := by
  induction files generalizing st with
  | nil => rfl
  | cons f fs ih => rw [List.foldl_cons, ih, all_symbolics_processFile]

theorem all_symbolics_processWalkEntry (name path : String) (st : CollectState)
    (entry : String × List String) :
    (processWalkEntry name path st entry).all_symbolics =
      if entryMarksSymbolic path entry then listInsert st.all_symbolics name
      else st.all_symbolics := by
  unfold processWalkEntry entryMarksSymbolic
  by_cases h1 : strContainsSlash (entry.1.drop (path.length + 1)) = true
  · simp only [h1, Bool.not_true, Bool.false_eq_true, if_false]
    by_cases h2 : (splitFirstSlash (entry.1.drop (path.length + 1))).1 = "symbolic"
    · have : ¬ ((splitFirstSlash (entry.1.drop (path.length + 1))).1 ≠ "symbolic" ∧
          (splitFirstSlash (entry.1.drop (path.length + 1))).1 ≠ "scalable") :=
        fun hc => hc.1 h2
      simp [this, h2, all_symbolics_processFile_fold]
    · by_cases h3 : (splitFirstSlash (entry.1.drop (path.length + 1))).1 = "scalable"
      · simp [h2, h3, all_symbolics_processFile_fold]
      · simp [h2, h3]
  · have h1' : strContainsSlash (entry.1.drop (path.length + 1)) = false := by
      revert h1
      cases strContainsSlash (entry.1.drop (path.length + 1)) <;> simp
    simp [h1']

theorem collectWF_processWalkEntry (name path : String) (st : CollectState)
    (entry : String × List String) (h : CollectWF st) :
    CollectWF (processWalkEntry name path st entry) := by
  unfold processWalkEntry
  by_cases h1 : !(strContainsSlash (entry.1.drop (path.length + 1)))
  · simpa [h1]
  · simp only [h1, if_false]
    set kind := (splitFirstSlash (entry.1.drop (path.length + 1))).1 with hkind
    by_cases h2 : kind ≠ "symbolic" ∧ kind ≠ "scalable"
    · simpa [if_pos h2]
    · simp only [if_neg h2]
      have hk : kind = "symbolic" ∨ kind = "scalable" := by
        by_cases hs : kind = "symbolic"
        · exact Or.inl hs
        · exact Or.inr (by
            by_contra hsc
            exact h2 ⟨hs, hsc⟩)
      have hbase : CollectWF (if kind = "symbolic" then
          { st with all_symbolics := listInsert st.all_symbolics name } else st) := by
        by_cases hs : kind = "symbolic"
        · simp only [if_pos hs]
          exact ⟨h.1, nodup_listInsert _ _ h.2⟩
        · simpa [if_neg hs]
      generalize (if kind = "symbolic" then
          { st with all_symbolics := listInsert st.all_symbolics name } else st) = st0 at hbase
      clear h
      induction entry.2 generalizing st0 with
      | nil => exact hbase
      | cons f fs ih =>
        exact ih _ (collectWF_processFile _ _ _ _ _ _ hk hbase)

theorem collectWF_processTheme (st : CollectState) (th : ThemeInput)
    (h : CollectWF st) : CollectWF (processTheme st th) := by
  unfold processTheme
  induction th.2.2 generalizing st with
  | nil => exact h
  | cons w ws ih => exact ih _ (collectWF_processWalkEntry _ _ _ _ h)

theorem collectWF_collect (themes : List ThemeInput) : CollectWF (collect themes) := by
  unfold collect
  have hinit : CollectWF initCollect := by
    constructor
    · intro q
      exact ⟨List.nodup_nil, by simp [initCollect, dataGet]⟩
    · exact List.nodup_nil
  generalize initCollect = st0 at hinit ⊢
  induction themes generalizing st0 with
  | nil => exact hinit
  | cons th ths ih => exact ih _ (collectWF_processTheme _ _ hinit)

theorem mem_all_symbolics_processTheme (st : CollectState) (th : ThemeInput) (t : String) :
    t ∈ (processTheme st th).all_symbolics ↔
      t ∈ st.all_symbolics ∨ (th.1 = t ∧ ∃ w ∈ th.2.2, entryMarksSymbolic th.2.1 w) := by
  unfold processTheme
  induction th.2.2 generalizing st with
  | nil => simp
  | cons w ws ih =>
    rw [List.foldl_cons, ih]
    rw [show (processWalkEntry th.1 th.2.1 st w).all_symbolics =
      if entryMarksSymbolic th.2.1 w then listInsert st.all_symbolics th.1
      else st.all_symbolics from all_symbolics_processWalkEntry _ _ _ _]
    by_cases hw : entryMarksSymbolic th.2.1 w
    · rw [if_pos hw, mem_listInsert]
      constructor
      · rintro ((hm | rfl) | ⟨ht, ww, hww, hmark⟩)
        · exact Or.inl hm
        · exact Or.inr ⟨rfl, w, List.mem_cons_self _ _, hw⟩
        · exact Or.inr ⟨ht, ww, List.mem_cons_of_mem _ hww, hmark⟩
      · rintro (hm | ⟨rfl, ww, hww, hmark⟩)
        · exact Or.inl (Or.inl hm)
        · exact Or.inl (Or.inr rfl)
    · rw [if_neg hw]
      constructor
      · rintro (hm | ⟨ht, ww, hww, hmark⟩)
        · exact Or.inl hm
        · exact Or.inr ⟨ht, ww, List.mem_cons_of_mem _ hww, hmark⟩
      · rintro (hm | ⟨rfl, ww, hww, hmark⟩)
        · exact Or.inl hm
        · rcases List.mem_cons.mp hww with rfl | hww
          · exact absurd hmark hw
          · exact Or.inr ⟨rfl, ww, hww, hmark⟩

theorem mem_all_symbolics_collect (themes : List ThemeInput) (t : String) :
    t ∈ (collect themes).all_symbolics ↔
      ∃ th ∈ themes, th.1 = t ∧ ∃ w ∈ th.2.2, entryMarksSymbolic th.2.1 w := by
  unfold collect
  have hgen : ∀ (l : List ThemeInput) (st : CollectState),
      t ∈ (l.foldl processTheme st).all_symbolics ↔
        t ∈ st.all_symbolics ∨ ∃ th ∈ l, th.1 = t ∧ ∃ w ∈ th.2.2, entryMarksSymbolic th.2.1 w := by
    intro l
    induction l with
    | nil => simp
    | cons th ths ih =>
      intro st
      rw [List.foldl_cons, ih, mem_all_symbolics_processTheme]
      constructor
      · rintro ((hm | hm) | ⟨th', hth', hspec⟩)
        · exact Or.inl hm
        · exact Or.inr ⟨th, List.mem_cons_self _ _, hm⟩
        · exact Or.inr ⟨th', List.mem_cons_of_mem _ hth', hspec⟩
      · rintro (hm | ⟨th', hth', hspec⟩)
        · exact Or.inl (Or.inl hm)
        · rcases List.mem_cons.mp hth' with rfl | hth'
          · exact Or.inl (Or.inr hspec)
          · exact Or.inr ⟨th', hth', hspec⟩
  rw [hgen]
  simp [initCollect]

-- ---------------------------------------------------------------------------
-- Lemmas: symbolics / scalables / diff of one observation set.
-- ---------------------------------------------------------------------------

theorem mem_symbolicsOf (datum : List (String × String)) (t : String) :
    t ∈ symbolicsOf datum ↔ (t, "symbolic") ∈ datum := by
  unfold symbolicsOf
  simp only [List.mem_map, List.mem_filter]
  constructor
  · rintro ⟨⟨a, b⟩, ⟨hmem, hb⟩, rfl⟩
    have : b = "symbolic" := by simpa using hb
    simpa [this] using hmem
  · intro h
    exact ⟨(t, "symbolic"), ⟨h, by simp⟩, rfl⟩

theorem mem_scalablesOf (datum : List (String × String)) (t : String) :
    t ∈ scalablesOf datum ↔ (t, "scalable") ∈ datum := by
  unfold scalablesOf
  simp only [List.mem_map, List.mem_filter]
  constructor
  · rintro ⟨⟨a, b⟩, ⟨hmem, hb⟩, rfl⟩
    have : b = "scalable" := by simpa using hb
    simpa [this] using hmem
  · intro h
    exact ⟨(t, "scalable"), ⟨h, by simp⟩, rfl⟩

theorem nodup_symbolicsOf (datum : List (String × String)) (h : datum.Nodup) :
    (symbolicsOf datum).Nodup := by
  unfold symbolicsOf
  refine List.Nodup.map_on ?_ (h.filter _)
  rintro ⟨a, b⟩ ha ⟨c, d⟩ hc hac
  have hb : b = "symbolic" := by simpa using (List.mem_filter.mp ha).2
  have hd : d = "symbolic" := by simpa using (List.mem_filter.mp hc).2
  simp only at hac
  simp [hac, hb, hd]

theorem nodup_scalablesOf (datum : List (String × String)) (h : datum.Nodup) :
    (scalablesOf datum).Nodup := by
  unfold scalablesOf
  refine List.Nodup.map_on ?_ (h.filter _)
  rintro ⟨a, b⟩ ha ⟨c, d⟩ hc hac
  have hb : b = "scalable" := by simpa using (List.mem_filter.mp ha).2
  have hd : d = "scalable" := by simpa using (List.mem_filter.mp hc).2
  simp only at hac
  simp [hac, hb, hd]

theorem nodup_diffOf (datum : List (String × String)) (h : datum.Nodup) :
    (diffOf datum).Nodup := (nodup_scalablesOf datum h).filter _

theorem symbolicsOf_singleton_symbolic (p : String × String) (h : p.2 = "symbolic") :
    symbolicsOf [p] = [p.1] := by
  obtain ⟨a, b⟩ := p
  simp only at h
  simp [symbolicsOf, h]

theorem symbolicsOf_singleton_scalable (p : String × String) (h : p.2 = "scalable") :
    symbolicsOf [p] = [] := by
  obtain ⟨a, b⟩ := p
  simp only at h
  simp [symbolicsOf, h]

theorem scalablesOf_singleton_scalable (p : String × String) (h : p.2 = "scalable") :
    scalablesOf [p] = [p.1] := by
  obtain ⟨a, b⟩ := p
  simp only at h
  simp [scalablesOf, h]

-- ---------------------------------------------------------------------------
-- Lemmas: how one classification step changes each accumulator.
-- ---------------------------------------------------------------------------

theorem symbolic_found_classifyStep (e : Enumeration)
    (d : List (String × List (String × String))) (a : List String)
    (st : ClassifyState) (f : String) :
    (classifyStep e d a st f).symbolic_found =
      if shortNameOf f ∈ SCALABLE_ONLY_ICONS then
        addAll st.symbolic_found (e (symbolicsOf (dataGet d f))) f
      else st.symbolic_found := by
  simp only [classifyStep]
  split_ifs <;> rfl

theorem scalable_found_classifyStep (e : Enumeration)
    (d : List (String × List (String × String))) (a : List String)
    (st : ClassifyState) (f : String) :
    (classifyStep e d a st f).scalable_found =
      if shortNameOf f ∈ SYMBOLIC_ONLY_ICONS then
        addAll st.scalable_found (e (scalablesOf (dataGet d f))) f
      else st.scalable_found := by
  simp only [classifyStep]
  split_ifs <;> rfl

theorem warn_missing_from_classifyStep (e : Enumeration)
    (d : List (String × List (String × String))) (a : List String)
    (st : ClassifyState) (f : String) :
    (classifyStep e d a st f).warn_missing_from =
      if ¬ (shortNameOf f ∈ SCALABLE_ONLY_ICONS ∨ shortNameOf f ∈ SYMBOLIC_ONLY_ICONS ∨
            shortNameOf f ∈ IGNORE_ILLUSTRATIONS ∨ shortNameOf f ∈ IGNORE_UI) ∧
          ¬ ((diffOf (dataGet d f)).length > 0) ∧
          ¬ (listSetEq (symbolicsOf (dataGet d f)) a = true) ∧
          FALLBACK_THEME ∈ symbolicsOf (dataGet d f) then
        addAll st.warn_missing_from
          (e (a.filter (fun t => decide (t ∉ symbolicsOf (dataGet d f))))) f
      else st.warn_missing_from := by
  simp only [classifyStep]
  split_ifs <;> first | rfl | tauto

theorem only_found_in_classifyStep (e : Enumeration)
    (d : List (String × List (String × String))) (a : List String)
    (st : ClassifyState) (f : String) :
    (classifyStep e d a st f).only_found_in =
      if ¬ (shortNameOf f ∈ SCALABLE_ONLY_ICONS ∨ shortNameOf f ∈ SYMBOLIC_ONLY_ICONS ∨
            shortNameOf f ∈ IGNORE_ILLUSTRATIONS ∨ shortNameOf f ∈ IGNORE_UI) ∧
          ¬ ((diffOf (dataGet d f)).length > 0) ∧
          ¬ (listSetEq (symbolicsOf (dataGet d f)) a = true) ∧
          FALLBACK_THEME ∉ symbolicsOf (dataGet d f) ∧
          (dataGet d f).length = 1 then
        bucketAdd st.only_found_in
          (theme_to_string ((dataGet d f).headD ("", "")).1 ((dataGet d f).headD ("", "")).2) f
      else st.only_found_in := by
  simp only [classifyStep]
  split_ifs <;> first | rfl | tauto

set_option maxHeartbeats 2000000 in
theorem missing_from_classifyStep (e : Enumeration)
    (d : List (String × List (String × String))) (a : List String)
    (st : ClassifyState) (f : String) :
    (classifyStep e d a st f).missing_from =
      if ¬ (shortNameOf f ∈ SCALABLE_ONLY_ICONS ∨ shortNameOf f ∈ SYMBOLIC_ONLY_ICONS ∨
            shortNameOf f ∈ IGNORE_ILLUSTRATIONS ∨ shortNameOf f ∈ IGNORE_UI) ∧
          (diffOf (dataGet d f)).length > 0 then
        addAll st.missing_from
          ((e (diffOf (dataGet d f))).map (fun name => name ++ "-symbolic")) f
      else if ¬ (shortNameOf f ∈ SCALABLE_ONLY_ICONS ∨ shortNameOf f ∈ SYMBOLIC_ONLY_ICONS ∨
            shortNameOf f ∈ IGNORE_ILLUSTRATIONS ∨ shortNameOf f ∈ IGNORE_UI) ∧
          ¬ ((diffOf (dataGet d f)).length > 0) ∧
          ¬ (listSetEq (symbolicsOf (dataGet d f)) a = true) ∧
          FALLBACK_THEME ∉ symbolicsOf (dataGet d f) ∧
          ¬ ((dataGet d f).length = 1) then
        bucketAdd st.missing_from FALLBACK_THEME f
      else st.missing_from := by
  simp only [classifyStep]
  split_ifs <;> first | rfl | tauto

theorem mem_bucketGet_bucketAdd_of_mem (b : Bucket) (key f q x : String)
    (h : x ∈ bucketGet b q) : x ∈ bucketGet (bucketAdd b key f) q := by
  rw [bucketGet_bucketAdd]
  split_ifs
  · exact List.mem_append_left _ h
  · exact h

theorem mem_bucketGet_bucketAdd (b : Bucket) (key f q x : String)
    (h : x ∈ bucketGet (bucketAdd b key f) q) :
    x ∈ bucketGet b q ∨ x = f := by
  rw [bucketGet_bucketAdd] at h
  split_ifs at h
  · rcases List.mem_append.mp h with h | h
    · exact Or.inl h
    · exact Or.inr (List.mem_singleton.mp h)
  · exact Or.inl h

theorem mem_classifyStep_only_found_in (e : Enumeration)
    (d : List (String × List (String × String))) (a : List String)
    (st : ClassifyState) (f q x : String)
    (h : x ∈ bucketGet (classifyStep e d a st f).only_found_in q) :
    x ∈ bucketGet st.only_found_in q ∨ x = f := by
  rw [only_found_in_classifyStep] at h
  split_ifs at h
  · exact mem_bucketGet_bucketAdd _ _ _ _ _ h
  · exact Or.inl h

theorem mem_classifyStep_missing_from (e : Enumeration)
    (d : List (String × List (String × String))) (a : List String)
    (st : ClassifyState) (f q x : String)
    (h : x ∈ bucketGet (classifyStep e d a st f).missing_from q) :
    x ∈ bucketGet st.missing_from q ∨ x = f := by
  rw [missing_from_classifyStep] at h
  split_ifs at h
  · rcases mem_bucketGet_addAll _ _ _ _ _ h with h | h
    · exact Or.inl h
    · exact Or.inr h.1
  · exact mem_bucketGet_bucketAdd _ _ _ _ _ h
  · exact Or.inl h

theorem mem_classifyStep_warn_missing_from (e : Enumeration)
    (d : List (String × List (String × String))) (a : List String)
    (st : ClassifyState) (f q x : String)
    (h : x ∈ bucketGet (classifyStep e d a st f).warn_missing_from q) :
    x ∈ bucketGet st.warn_missing_from q ∨ x = f := by
  rw [warn_missing_from_classifyStep] at h
  split_ifs at h
  · rcases mem_bucketGet_addAll _ _ _ _ _ h with h | h
    · exact Or.inl h
    · exact Or.inr h.1
  · exact Or.inl h

theorem mem_classifyStep_symbolic_found (e : Enumeration)
    (d : List (String × List (String × String))) (a : List String)
    (st : ClassifyState) (f q x : String)
    (h : x ∈ bucketGet (classifyStep e d a st f).symbolic_found q) :
    x ∈ bucketGet st.symbolic_found q ∨ x = f := by
  rw [symbolic_found_classifyStep] at h
  split_ifs at h
  · rcases mem_bucketGet_addAll _ _ _ _ _ h with h | h
    · exact Or.inl h
    · exact Or.inr h.1
  · exact Or.inl h

theorem mem_classifyStep_scalable_found (e : Enumeration)
    (d : List (String × List (String × String))) (a : List String)
    (st : ClassifyState) (f q x : String)
    (h : x ∈ bucketGet (classifyStep e d a st f).scalable_found q) :
    x ∈ bucketGet st.scalable_found q ∨ (x = f ∧ q ∈ e (scalablesOf (dataGet d f))) := by
  rw [scalable_found_classifyStep] at h
  split_ifs at h
  · exact mem_bucketGet_addAll _ _ _ _ _ h
  · exact Or.inl h

theorem mono_classifyStep_scalable_found (e : Enumeration)
    (d : List (String × List (String × String))) (a : List String)
    (st : ClassifyState) (f q x : String)
    (h : x ∈ bucketGet st.scalable_found q) :
    x ∈ bucketGet (classifyStep e d a st f).scalable_found q := by
  rw [scalable_found_classifyStep]
  split_ifs
  · exact mem_bucketGet_addAll_of_mem _ _ _ _ _ h
  · exact h

/-- Under the conditions of rule 5 (`symbolics == all_symbolics`, reached
because the icon is in no policy set and has no scalable-without-symbolic
theme), the classification step leaves the state untouched. -/
theorem classifyStep_eq_of_clean (e : Enumeration)
    (d : List (String × List (String × String))) (a : List String)
    (st : ClassifyState) (f : String)
    (hc1 : shortNameOf f ∉ SCALABLE_ONLY_ICONS)
    (hc2 : shortNameOf f ∉ SYMBOLIC_ONLY_ICONS)
    (hc3 : shortNameOf f ∉ IGNORE_ILLUSTRATIONS)
    (hc4 : shortNameOf f ∉ IGNORE_UI)
    (hdiff : diffOf (dataGet d f) = [])
    (hset : listSetEq (symbolicsOf (dataGet d f)) a = true) :
    classifyStep e d a st f = st := by
  simp [classifyStep, hc1, hc2, hc3, hc4, hdiff, hset]

theorem notRecorded_foldl (e : Enumeration)
    (d : List (String × List (String × String))) (a : List String) (fname : String)
    (hident : ∀ st, classifyStep e d a st fname = st) :
    ∀ (l : List String) (st : ClassifyState), NotRecorded fname st →
      NotRecorded fname (l.foldl (classifyStep e d a) st) := by
  intro l
  induction l with
  | nil => exact fun st h => h
  | cons g gs ih =>
    intro st hst
    rw [List.foldl_cons]
    apply ih
    by_cases hg : g = fname
    · subst hg
      rw [hident]
      exact hst
    · intro q
      obtain ⟨h1, h2, h3, h4, h5⟩ := hst q
      refine ⟨?_, ?_, ?_, ?_, ?_⟩ <;> intro hmem
      · rcases mem_classifyStep_only_found_in e d a st g q fname hmem with hh | hh
        · exact h1 hh
        · exact hg hh.symm
      · rcases mem_classifyStep_missing_from e d a st g q fname hmem with hh | hh
        · exact h2 hh
        · exact hg hh.symm
      · rcases mem_classifyStep_warn_missing_from e d a st g q fname hmem with hh | hh
        · exact h3 hh
        · exact hg hh.symm
      · rcases mem_classifyStep_symbolic_found e d a st g q fname hmem with hh | hh
        · exact h4 hh
        · exact hg hh.symm
      · rcases mem_classifyStep_scalable_found e d a st g q fname hmem with hh | hh
        · exact h5 hh
        · exact hg hh.1.symm

theorem notRecorded_initClassify (fname : String) : NotRecorded fname initClassify := by
  intro q
  refine ⟨?_, ?_, ?_, ?_, ?_⟩ <;> simp [initClassify, bucketGet]

-- ---------------------------------------------------------------------------
-- Lemmas: sorting and enumerations.
-- ---------------------------------------------------------------------------

theorem insertSorted_perm (le : String → String → Bool) (x : String) (l : List String) :
    List.Perm (insertSorted le x l) (x :: l) := by
  induction l with
  | nil => exact List.Perm.refl _
  | cons y ys ih =>
    unfold insertSorted
    split_ifs
    · exact List.Perm.refl _
    · exact (List.Perm.cons y ih).trans (List.Perm.swap x y ys)

theorem sortedBy_perm (le : String → String → Bool) (l : List String) :
    List.Perm (sortedBy le l) l := by
  induction l with
  | nil => exact List.Perm.refl _
  | cons x xs ih =>
    exact (insertSorted_perm le x (sortedBy le xs)).trans (List.Perm.cons x ih)

theorem mem_sortedKeys (d : List (String × List (String × String))) (x : String) :
    x ∈ sortedKeys d ↔ x ∈ keysOf d :=
  (sortedBy_perm strLe (d.map Prod.fst)).mem_iff

theorem validEnum_idEnum : ValidEnum idEnum := fun l => List.Perm.refl l

theorem validEnum_revEnum : ValidEnum revEnum := fun l => l.reverse_perm

-- ---------------------------------------------------------------------------
-- Lemmas: folding the classification step.
-- ---------------------------------------------------------------------------

theorem mem_scalable_found_fold (e : Enumeration)
    (d : List (String × List (String × String))) (a : List String) :
    ∀ (l : List String) (st : ClassifyState) (q x : String),
      x ∈ bucketGet ((l.foldl (classifyStep e d a) st)).scalable_found q →
      x ∈ bucketGet st.scalable_found q ∨ q ∈ e (scalablesOf (dataGet d x)) := by
  intro l
  induction l with
  | nil => exact fun st q x h => Or.inl h
  | cons g gs ih =>
    intro st q x h
    rw [List.foldl_cons] at h
    rcases ih _ q x h with hh | hh
    · rcases mem_classifyStep_scalable_found e d a st g q x hh with hh | hh
      · exact Or.inl hh
      · rw [hh.1]
        exact Or.inr hh.2
    · exact Or.inr hh

theorem mono_scalable_found_fold (e : Enumeration)
    (d : List (String × List (String × String))) (a : List String) :
    ∀ (l : List String) (st : ClassifyState) (q x : String),
      x ∈ bucketGet st.scalable_found q →
      x ∈ bucketGet ((l.foldl (classifyStep e d a) st)).scalable_found q := by
  intro l
  induction l with
  | nil => exact fun st q x h => h
  | cons g gs ih =>
    intro st q x h
    rw [List.foldl_cons]
    exact ih _ q x (mono_classifyStep_scalable_found e d a st g q x h)

theorem keys_only_found_in_classifyStep (e : Enumeration)
    (d : List (String × List (String × String))) (a : List String)
    (st : ClassifyState) (f q : String)
    (h : q ∈ keysOf (classifyStep e d a st f).only_found_in) :
    q ∈ keysOf st.only_found_in ∨
      ((dataGet d f).length = 1 ∧ diffOf (dataGet d f) = [] ∧
        FALLBACK_THEME ∉ symbolicsOf (dataGet d f) ∧
        q = theme_to_string ((dataGet d f).headD ("", "")).1 ((dataGet d f).headD ("", "")).2) := by
  rw [only_found_in_classifyStep] at h
  split_ifs at h with hcond
  · rcases (mem_keysOf_bucketAdd _ _ _ _).mp h with h | h
    · exact Or.inl h
    · refine Or.inr ⟨hcond.2.2.2.2, ?_, hcond.2.2.2.1, h⟩
      exact List.length_eq_zero.mp (Nat.eq_zero_of_not_pos hcond.2.1)
  · exact Or.inl h

theorem keys_only_found_in_fold (e : Enumeration)
    (d : List (String × List (String × String))) (a : List String) :
    ∀ (l : List String) (st : ClassifyState) (q : String),
      q ∈ keysOf ((l.foldl (classifyStep e d a) st).only_found_in) →
      q ∈ keysOf st.only_found_in ∨
        ∃ f, (dataGet d f).length = 1 ∧ diffOf (dataGet d f) = [] ∧
          FALLBACK_THEME ∉ symbolicsOf (dataGet d f) ∧
          q = theme_to_string ((dataGet d f).headD ("", "")).1 ((dataGet d f).headD ("", "")).2 := by
  intro l
  induction l with
  | nil => exact fun st q h => Or.inl h
  | cons g gs ih =>
    intro st q h
    rw [List.foldl_cons] at h
    rcases ih _ q h with hh | hh
    · rcases keys_only_found_in_classifyStep e d a st g q hh with hh | hh
      · exact Or.inl hh
      · exact Or.inr ⟨g, hh⟩
    · exact Or.inr hh

-- ---------------------------------------------------------------------------
-- Claims.
-- ---------------------------------------------------------------------------

/-- C1 (counterexample): the claim "symbolics == all_symbolics implies no
error or warning entry" fails on the code: `cat/color-wheel.svg` is symbolic
in every theme that has a symbolic set, yet the SCALABLE_ONLY rule (which runs
before the all-themes check) records it under `symbolic_found["hicolor"]`. -/
theorem C1_counterexample :
    listSetEq (symbolicsOf (dataGet (collect themesCW).data "cat/color-wheel.svg"))
        (collect themesCW).all_symbolics = true ∧
    "cat/color-wheel.svg" ∈
      bucketGet (classify idEnum (collect themesCW)).symbolic_found "hicolor" := by
  constructor
  · decide
  · decide

/-- C1 (amended): an icon whose short name is in none of the policy or ignore
sets, whose every scalable theme also has it as symbolic (`diff` empty), and
whose symbolic themes are exactly `all_symbolics`, is recorded in no
error or warning accumulator of the classifier. -/
theorem C1_amended (themes : List ThemeInput) (e : Enumeration) (fname : String)
    (hc1 : shortNameOf fname ∉ SCALABLE_ONLY_ICONS)
    (hc2 : shortNameOf fname ∉ SYMBOLIC_ONLY_ICONS)
    (hc3 : shortNameOf fname ∉ IGNORE_ILLUSTRATIONS)
    (hc4 : shortNameOf fname ∉ IGNORE_UI)
    (hdiff : diffOf (dataGet (collect themes).data fname) = [])
    (hset : listSetEq (symbolicsOf (dataGet (collect themes).data fname))
        (collect themes).all_symbolics = true) :
    NotRecorded fname (classify e (collect themes)) := by
  unfold classify
  refine notRecorded_foldl e _ _ fname ?_ _ _ (notRecorded_initClassify fname)
  intro st
  exact classifyStep_eq_of_clean e _ _ st fname hc1 hc2 hc3 hc4 hdiff hset

/-- C1 (witness): the amended claim at the concrete tree `themesW` whose icon
`cat/ok.svg` is symbolic in the single symbolic theme. -/
theorem C1_witness :
    "cat/ok.svg" ∉ bucketGet (classify idEnum (collect themesW)).only_found_in "hicolor" ∧
    "cat/ok.svg" ∉ bucketGet (classify idEnum (collect themesW)).missing_from "hicolor" ∧
    "cat/ok.svg" ∉ bucketGet (classify idEnum (collect themesW)).warn_missing_from "hicolor" ∧
    "cat/ok.svg" ∉ bucketGet (classify idEnum (collect themesW)).symbolic_found "hicolor" ∧
    "cat/ok.svg" ∉ bucketGet (classify idEnum (collect themesW)).scalable_found "hicolor" :=
  C1_amended themesW idEnum "cat/ok.svg" (by decide) (by decide) (by decide) (by decide)
    (by decide) (by decide) "hicolor"

/-- C2 (counterexample): on Scenario A the code does not record the warning
`MISSING_FROM["custom"]` for `cat/x.svg`; it records an error instead, so the
claim fails on both conjuncts. -/
theorem C2_counterexample :
    "cat/x.svg" ∉ bucketGet (classify idEnum (collect themesA)).warn_missing_from "custom" ∧
    (classify idEnum (collect themesA)).missing_from ≠ [] := by
  constructor
  · decide
  · decide

/-- C2 (amended): on Scenario A the rule "for every scalable there must be a
symbolic" fires first: the checker records the error
`MISSING_FROM["custom-symbolic"]` containing `cat/x.svg` and no warning. -/
theorem C2_amended :
    bucketGet (classify idEnum (collect themesA)).missing_from "custom-symbolic" =
      ["cat/x.svg"] ∧
    (classify idEnum (collect themesA)).warn_missing_from = [] := by
  constructor
  · decide
  · decide

/-- C3 (counterexample): on Scenario D the code records nothing under
`ONLY_FOUND_IN["custom-scalable"]` for `cat/z.svg` (the bucket stays empty). -/
theorem C3_counterexample :
    "cat/z.svg" ∉ bucketGet (classify idEnum (collect themesD)).only_found_in "custom-scalable" ∧
    (classify idEnum (collect themesD)).only_found_in = [] := by
  constructor
  · decide
  · decide

/-- C3 (amended): on Scenario D the scalable-without-symbolic rule fires
before the single-observation rule, so the checker records the error
`MISSING_FROM["custom-symbolic"]` containing `cat/z.svg` and nothing in
`ONLY_FOUND_IN`. -/
theorem C3_amended :
    bucketGet (classify idEnum (collect themesD)).missing_from "custom-symbolic" =
      ["cat/z.svg"] ∧
    (classify idEnum (collect themesD)).only_found_in = [] := by
  constructor
  · decide
  · decide

set_option maxRecDepth 4000 in
/-- C4 (counterexample): a theme whose symbolic hierarchy contains no file at
all (so in particular no validly-named `-symbolic.svg` file) still enters
`all_symbolics`, because the collector marks the theme per walked directory,
before looking at any file. -/
theorem C4_counterexample :
    "emptytheme" ∈ (collect themesEmptyDir).all_symbolics ∧
    (collect themesEmptyDir).data = [] ∧
    (collect themesEmptyDir).bad_symbolic = [] := by
  refine ⟨by decide, by decide, by decide⟩

/-- C4 (amended): a theme is in `all_symbolics` iff its walk yields at least
one directory whose path relative to the theme root has two or more
components and starts with the `symbolic` kind - regardless of any files. -/
theorem C4_amended (themes : List ThemeInput) (t : String) :
    t ∈ (collect themes).all_symbolics ↔
      ∃ th ∈ themes, th.1 = t ∧ ∃ w ∈ th.2.2, entryMarksSymbolic th.2.1 w :=
  mem_all_symbolics_collect themes t

/-- C5 (code bug): `cat/feBlend-icon.svg` has its normalized basename in
`IGNORE_ILLUSTRATIONS`, yet the collector registers the pair
`("hicolor", "scalable")` for it: the skip test at line 134 compares the
full filename (still carrying `.svg`) against the extension-less ignore
entries, so it never fires. -/
theorem C5_eval :
    shortNameOf "cat/feBlend-icon.svg" ∈ IGNORE_ILLUSTRATIONS ∧
    dataGet (collect themesIgn).data "cat/feBlend-icon.svg" = [("hicolor", "scalable")] := by
  constructor
  · decide
  · decide

/-- C6: an icon whose short name is in `SYMBOLIC_ONLY_ICONS` is recorded in
the SYMBOLIC_ONLY accumulator under theme `t` iff the collector observed it
with kind `scalable` in theme `t`. -/
theorem C6_theorem (themes : List ThemeInput) (e : Enumeration) (fname t : String)
    (hv : ValidEnum e) (hshort : shortNameOf fname ∈ SYMBOLIC_ONLY_ICONS) :
    fname ∈ bucketGet (classify e (collect themes)).scalable_found t ↔
      (t, "scalable") ∈ dataGet (collect themes).data fname := by
  unfold classify
  constructor
  · intro h
    rcases mem_scalable_found_fold e _ _ _ _ t fname h with hh | hh
    · simp [initClassify, bucketGet] at hh
    · exact (mem_scalablesOf _ t).mp ((hv _).mem_iff.mp hh)
  · intro h
    have hkey : fname ∈ sortedKeys (collect themes).data := by
      rw [mem_sortedKeys]
      by_contra hk
      rw [dataGet_eq_nil_of_not_mem _ _ hk] at h
      exact (List.not_mem_nil _) h
    obtain ⟨l1, l2, hsplit⟩ := List.append_of_mem hkey
    rw [hsplit, List.foldl_append, List.foldl_cons]
    apply mono_scalable_found_fold
    rw [scalable_found_classifyStep, if_pos hshort]
    apply self_mem_bucketGet_addAll
    exact (hv _).mem_iff.mpr ((mem_scalablesOf _ t).mpr h)

/-- C6 (witness): Scenario C - `list-add` as `hicolor/scalable/cat/list-add.svg`
lands in the SYMBOLIC_ONLY accumulator under `hicolor`. -/
theorem C6_witness :
    "cat/list-add.svg" ∈
      bucketGet (classify idEnum (collect themesLA)).scalable_found "hicolor" :=
  (C6_theorem themesLA idEnum "cat/list-add.svg" "hicolor" validEnum_idEnum
    (by decide)).mpr (by decide)

theorem runMain_exit_formula (themes : List ThemeInput) (e : Enumeration) :
    (runMain e themes).2 =
      if (collect themes).bad_symbolic = [] ∧ (collect themes).bad_scalable = [] ∧
          (classify e (collect themes)).only_found_in = [] ∧
          (classify e (collect themes)).missing_from = [] ∧
          (classify e (collect themes)).symbolic_found = [] ∧
          (classify e (collect themes)).scalable_found = [] then 0 else 5 := by
  by_cases h1 : (collect themes).bad_symbolic = [] <;>
    by_cases h2 : (collect themes).bad_scalable = [] <;>
    by_cases h3 : (classify e (collect themes)).only_found_in = [] <;>
    by_cases h4 : (classify e (collect themes)).missing_from = [] <;>
    by_cases h5 : (classify e (collect themes)).symbolic_found = [] <;>
    by_cases h6 : (classify e (collect themes)).scalable_found = [] <;>
    simp [runMain, find_errors_in, h1, h2, h3, h4, h5, h6, List.isEmpty_iff]

/-- C7: the process exit status is 5 exactly when one of the six error
categories is non-empty, and 0 otherwise - warnings never affect it. -/
theorem C7_theorem (themes : List ThemeInput) (e : Enumeration) :
    (runMain e themes).2 =
      if (collect themes).bad_symbolic = [] ∧ (collect themes).bad_scalable = [] ∧
          (classify e (collect themes)).only_found_in = [] ∧
          (classify e (collect themes)).missing_from = [] ∧
          (classify e (collect themes)).symbolic_found = [] ∧
          (classify e (collect themes)).scalable_found = [] then 0 else 5 :=
  runMain_exit_formula themes e

/-- C9: a walk entry whose path relative to the theme root has no `/` (for
example `<theme>/symbolic` itself) contributes nothing to the collection
state, whatever files it holds: they are neither registered nor reported. -/
theorem C9_theorem (name path : String) (st : CollectState) (root : String)
    (files : List String)
    (h : strContainsSlash (root.drop (path.length + 1)) = false) :
    processWalkEntry name path st (root, files) = st := by
  unfold processWalkEntry
  simp [h]

/-- C9 (witness): `.svg` files directly inside `hicolor/symbolic/` are
silently ignored. -/
theorem C9_witness :
    processWalkEntry "hicolor" "./share/icons/hicolor" initCollect
      ("./share/icons/hicolor/symbolic", ["weird.svg", "cat.svg"]) = initCollect :=
  C9_theorem "hicolor" "./share/icons/hicolor" initCollect
    "./share/icons/hicolor/symbolic" ["weird.svg", "cat.svg"] (by decide)

/-- C10: every key of the ONLY_FOUND_IN accumulator is of the form
`<theme>-symbolic` with `<theme>` different from the fallback theme: a
single-scalable icon is caught earlier by the scalable-without-symbolic rule,
and a fallback-symbolic icon is caught by the fallback-presence rule. -/
theorem C10_theorem (themes : List ThemeInput) (e : Enumeration) (key : String)
    (h : key ∈ keysOf (classify e (collect themes)).only_found_in) :
    ∃ t, t ≠ FALLBACK_THEME ∧ key = theme_to_string t "symbolic" := by
  unfold classify at h
  rcases keys_only_found_in_fold e _ _ _ _ key h with hh | ⟨f, hlen, hdiff, hfb, hkey⟩
  · simp [initClassify, keysOf] at hh
  · obtain ⟨p, hp⟩ := List.length_eq_one.mp hlen
    have hwf := collectWF_collect themes
    have hkind := (hwf.1 f).2 p (by rw [hp]; exact List.mem_cons_self _ _)
    rcases hkind with hk | hk
    · refine ⟨p.1, ?_, ?_⟩
      · intro hfb'
        apply hfb
        rw [hp, symbolicsOf_singleton_symbolic p hk, ← hfb']
        exact List.mem_singleton_self _
      · rw [hkey, hp]
        simp only [List.headD_cons]
        rw [hk]
    · exfalso
      rw [hp] at hdiff
      unfold diffOf at hdiff
      rw [scalablesOf_singleton_scalable p hk, symbolicsOf_singleton_scalable p hk] at hdiff
      simp at hdiff

/-- C10 (witness): on `themesOF` the single ONLY_FOUND_IN key is
`custom-symbolic`, which indeed names a non-fallback theme's symbolic kind. -/
theorem C10_witness :
    ∃ t, t ≠ FALLBACK_THEME ∧ "custom-symbolic" = theme_to_string t "symbolic" :=
  C10_theorem themesOF idEnum "custom-symbolic" (by decide)

-- ---------------------------------------------------------------------------
-- Determinism up to set-enumeration order (machinery for C8).
-- ---------------------------------------------------------------------------

theorem bucketGet_addAll_congr (b1 b2 : Bucket) (l1 l2 s : List String) (f q : String)
    (hp1 : List.Perm l1 s) (hp2 : List.Perm l2 s) (hnd : s.Nodup)
    (hb : bucketGet b1 q = bucketGet b2 q) :
    bucketGet (addAll b1 l1 f) q = bucketGet (addAll b2 l2 f) q := by
  rw [bucketGet_addAll_perm b1 l1 s f q hp1 hnd, bucketGet_addAll_perm b2 l2 s f q hp2 hnd, hb]

theorem append_suffix_injective (s a b : String) (h : a ++ s = b ++ s) : a = b := by
  have hd : a.data ++ s.data = b.data ++ s.data := by
    rw [← String.data_append, ← String.data_append, h]
  exact String.ext (List.append_cancel_right hd)

theorem nodup_map_append_suffix (l : List String) (s : String) (h : l.Nodup) :
    (l.map (fun n => n ++ s)).Nodup := by
  refine List.Nodup.map_on ?_ h
  intro a _ b _ hab
  exact append_suffix_injective s a b hab

theorem classifyStep_congr (e1 e2 : Enumeration) (hv1 : ValidEnum e1)
    (hv2 : ValidEnum e2) (d : List (String × List (String × String)))
    (a : List String) (f : String) (hnd : (dataGet d f).Nodup) (hand : a.Nodup)
    (s1 s2 : ClassifyState) (hg : GetsEq s1 s2) :
    GetsEq (classifyStep e1 d a s1 f) (classifyStep e2 d a s2 f) := by
  intro q
  refine ⟨?_, ?_, ?_, ?_, ?_⟩
  · rw [only_found_in_classifyStep, only_found_in_classifyStep]
    split_ifs
    · simp [bucketGet_bucketAdd, (hg q).1]
    · exact (hg q).1
  · rw [missing_from_classifyStep, missing_from_classifyStep]
    split_ifs
    · exact bucketGet_addAll_congr _ _ _ _ ((diffOf (dataGet d f)).map (fun n => n ++ "-symbolic"))
        f q ((hv1 _).map _) ((hv2 _).map _)
        (nodup_map_append_suffix _ _ (nodup_diffOf _ hnd)) (hg q).2.1
    · simp [bucketGet_bucketAdd, (hg q).2.1]
    · exact (hg q).2.1
  · rw [warn_missing_from_classifyStep, warn_missing_from_classifyStep]
    split_ifs
    · exact bucketGet_addAll_congr _ _ _ _ _ f q (hv1 _) (hv2 _)
        (hand.filter _) (hg q).2.2.1
    · exact (hg q).2.2.1
  · rw [symbolic_found_classifyStep, symbolic_found_classifyStep]
    split_ifs
    · exact bucketGet_addAll_congr _ _ _ _ _ f q (hv1 _) (hv2 _)
        (nodup_symbolicsOf _ hnd) (hg q).2.2.2.1
    · exact (hg q).2.2.2.1
  · rw [scalable_found_classifyStep, scalable_found_classifyStep]
    split_ifs
    · exact bucketGet_addAll_congr _ _ _ _ _ f q (hv1 _) (hv2 _)
        (nodup_scalablesOf _ hnd) (hg q).2.2.2.2
    · exact (hg q).2.2.2.2

theorem valsNEState_classifyStep (e : Enumeration)
    (d : List (String × List (String × String))) (a : List String)
    (st : ClassifyState) (f : String) (h : ValsNEState st) :
    ValsNEState (classifyStep e d a st f) := by
  obtain ⟨h1, h2, h3, h4, h5⟩ := h
  refine ⟨?_, ?_, ?_, ?_, ?_⟩
  · rw [only_found_in_classifyStep]
    split_ifs
    · exact valsNE_bucketAdd _ _ _ h1
    · exact h1
  · rw [missing_from_classifyStep]
    split_ifs
    · exact valsNE_addAll _ _ _ h2
    · exact valsNE_bucketAdd _ _ _ h2
    · exact h2
  · rw [warn_missing_from_classifyStep]
    split_ifs
    · exact valsNE_addAll _ _ _ h3
    · exact h3
  · rw [symbolic_found_classifyStep]
    split_ifs
    · exact valsNE_addAll _ _ _ h4
    · exact h4
  · rw [scalable_found_classifyStep]
    split_ifs
    · exact valsNE_addAll _ _ _ h5
    · exact h5

theorem valsNEState_classify (e : Enumeration) (cs : CollectState) :
    ValsNEState (classify e cs) := by
  unfold classify
  have hinit : ValsNEState initClassify := by
    refine ⟨?_, ?_, ?_, ?_, ?_⟩ <;> intro p hp <;> simp [initClassify] at hp
  generalize initClassify = st0 at hinit
  induction sortedKeys cs.data generalizing st0 with
  | nil => exact hinit
  | cons g gs ih => exact ih _ (valsNEState_classifyStep _ _ _ _ _ hinit)

theorem classify_congr (e1 e2 : Enumeration) (hv1 : ValidEnum e1) (hv2 : ValidEnum e2)
    (cs : CollectState) (hwf : CollectWF cs) :
    GetsEq (classify e1 cs) (classify e2 cs) := by
  unfold classify
  have hgen : ∀ (l : List String) (s1 s2 : ClassifyState), GetsEq s1 s2 →
      GetsEq (l.foldl (classifyStep e1 cs.data cs.all_symbolics) s1)
        (l.foldl (classifyStep e2 cs.data cs.all_symbolics) s2) := by
    intro l
    induction l with
    | nil => exact fun s1 s2 h => h
    | cons g gs ih =>
      intro s1 s2 h
      rw [List.foldl_cons, List.foldl_cons]
      exact ih _ _ (classifyStep_congr e1 e2 hv1 hv2 _ _ g ((hwf.1 g).1) hwf.2 s1 s2 h)
  exact hgen _ _ _ (fun q => ⟨rfl, rfl, rfl, rfl, rfl⟩)

/-- C8 (counterexample): the report text is not a function of the directory
tree alone - two legitimate set-enumeration orders (Python set iteration
order is unspecified and varies with the per-process hash seed) produce
different report texts on the same tree, because the per-theme warning blocks
are emitted in set-iteration order. -/
theorem C8_counterexample :
    ValidEnum idEnum ∧ ValidEnum revEnum ∧
    (runMain idEnum themesAB).1 ≠ (runMain revEnum themesAB).1 :=
  ⟨validEnum_idEnum, validEnum_revEnum, by set_option maxRecDepth 20000 in decide⟩

/-- C8 (amended): the exit code and the content of every report bucket (the
file list recorded under each key) are deterministic functions of the
directory tree - only the textual order of per-key blocks can vary with the
runtime's set-enumeration order. -/
theorem C8_amended (themes : List ThemeInput) (e1 e2 : Enumeration)
    (hv1 : ValidEnum e1) (hv2 : ValidEnum e2) :
    (runMain e1 themes).2 = (runMain e2 themes).2 ∧
    GetsEq (classify e1 (collect themes)) (classify e2 (collect themes)) := by
  have hwf := collectWF_collect themes
  have hg := classify_congr e1 e2 hv1 hv2 _ hwf
  have hne1 := valsNEState_classify e1 (collect themes)
  have hne2 := valsNEState_classify e2 (collect themes)
  refine ⟨?_, hg⟩
  rw [runMain_exit_formula, runMain_exit_formula]
  have i3 := bucket_nil_iff _ _ hne1.1 hne2.1 (fun q => (hg q).1)
  have i4 := bucket_nil_iff _ _ hne1.2.1 hne2.2.1 (fun q => (hg q).2.1)
  have i5 := bucket_nil_iff _ _ hne1.2.2.2.1 hne2.2.2.2.1 (fun q => (hg q).2.2.2.1)
  have i6 := bucket_nil_iff _ _ hne1.2.2.2.2 hne2.2.2.2.2 (fun q => (hg q).2.2.2.2)
  exact if_congr
    (and_congr Iff.rfl (and_congr Iff.rfl (and_congr i3 (and_congr i4 (and_congr i5 i6)))))
    rfl rfl

/-- C8 (witness): on the tree with themes `hicolor`, `alpha`, `beta` the exit
codes of the two enumeration orders agree, as does the warning list recorded
for `alpha`. -/
theorem C8_witness :
    (runMain idEnum themesAB).2 = (runMain revEnum themesAB).2 ∧
    bucketGet (classify idEnum (collect themesAB)).warn_missing_from "alpha" =
      bucketGet (classify revEnum (collect themesAB)).warn_missing_from "alpha" :=
  ⟨(C8_amended themesAB idEnum revEnum validEnum_idEnum validEnum_revEnum).1,
   ((C8_amended themesAB idEnum revEnum validEnum_idEnum validEnum_revEnum).2 "alpha").2.2.1⟩

-- ---------------------------------------------------------------------------
-- Evaluation sanity checks for the string helpers and the pipeline.
-- ---------------------------------------------------------------------------

theorem strEndsWith_eval : strEndsWith "x-symbolic.svg" "-symbolic.svg" = true := by decide

theorem strReplace_eval : strReplace "x-symbolic.svg" "-symbolic.svg" ".svg" = "x.svg" := by
  decide

theorem splitFirstSlash_eval : splitFirstSlash "symbolic/cat/sub" = ("symbolic", "cat/sub") := by
  decide

theorem collect_eval :
    collect [("hicolor", "./share/icons/hicolor",
      [("./share/icons/hicolor/symbolic/cat", ["x-symbolic.svg"])])] =
    ⟨[("cat/x.svg", [("hicolor", "symbolic")])], [], [], ["hicolor"]⟩ := by decide

theorem classify_eval :
    classify idEnum (collect themesA) =
    ⟨[], [("custom-symbolic", ["cat/x.svg"])], [], [], []⟩ := by decide

set_option maxRecDepth 4000 in
theorem runMain_eval :
    runMain idEnum themesA =
      (" == 1 errors found in icon themes! == \n\nIcons missing from custom-symbolic:\n - cat/x.svg\n\n",
       5) := by decide
